import Mathlib

/-!
Verification of the completion gateway in src/skillweaver/lm.py.

The embedding works on Python strings as lists of characters.  Python
dictionaries appear as association lists in which a later binding for a key
shadows an earlier one, matching the semantics of dict literals combined
with double-star merges and of item assignment.
-/

namespace SkillWeaver

/-- Whitespace characters recognised when stripping and parsing.  This is the
common core of the default set of the Python str.strip method and of the JSON
whitespace set. -/
def isWsChar (c : Char) : Bool :=
  c = ' ' || c = '\t' || c = '\n' || c = '\r'

/-- Model of the Python str.strip method with no argument: drop whitespace
from both ends of the character list. -/
def pyStrip (cs : List Char) : List Char :=
  ((cs.dropWhile isWsChar).reverse.dropWhile isWsChar).reverse

/-- Model of the Python substring containment test (the in operator on
strings), used with nonempty separators only. -/
def occursIn (sep : List Char) (cs : List Char) : Bool :=
  match cs with
  | [] => sep.isPrefixOf ([] : List Char)
  | c :: rest => sep.isPrefixOf (c :: rest) || occursIn sep rest

/-- Fuel driven worker for the split: the fuel dominates the input length,
so the zero fuel branch is never reached from splitOnSub. -/
def splitOnSubF (sep : List Char) : Nat → List Char → List (List Char)
  | 0, cs => [cs]
  | _ + 1, [] => [[]]
  | fuel + 1, c :: rest =>
    if sep ≠ [] ∧ sep.isPrefixOf (c :: rest) then
      [] :: splitOnSubF sep fuel ((c :: rest).drop sep.length)
    else
      match splitOnSubF sep fuel rest with
      | [] => [[c]]
      | r :: rs => (c :: r) :: rs

/-- Model of the Python str.split method for a nonempty separator: scan left
to right, removing nonoverlapping occurrences of the separator. -/
def splitOnSub (sep : List Char) (cs : List Char) : List (List Char) :=
  splitOnSubF sep cs.length cs

/-- Indexing into the result of a split, modelling the Python subscript; the
call sites guarantee the index is in bounds, so the default is never hit. -/
def idxD (l : List (List Char)) (i : Nat) : List Char := l.getD i []

/-- JSON values, the decoded objects produced by json.loads. -/
inductive JValue where
  | jnull
  | jbool (b : Bool)
  | jnum (n : Int)
  | jstr (s : List Char)
  | jarr (xs : List JValue)
  | jobj (fields : List (List Char × JValue))

/-- Translation of a JSON escape character, covering the escapes the claims
exercise; an unrecognised escape yields the character itself. -/
def escapeChar (c : Char) : Char :=
  if c = 'n' then '\n'
  else if c = 't' then '\t'
  else if c = 'r' then '\r'
  else if c = 'b' then '\x08'
  else if c = 'f' then '\x0c'
  else c

/-- Parse the body of a JSON string after the opening quote, returning the
decoded characters and the input following the closing quote. -/
def parseStringBody (cs : List Char) : Option (List Char × List Char) :=
  match cs with
  | [] => none
  | '"' :: rest => some ([], rest)
  | '\\' :: c :: rest =>
    (parseStringBody rest).map (fun p => (escapeChar c :: p.1, p.2))
  | c :: rest =>
    (parseStringBody rest).map (fun p => (c :: p.1, p.2))

/-- Numeric value of a list of decimal digits. -/
def digitsToNat (ds : List Char) : Nat :=
  ds.foldl (fun a c => a * 10 + (c.toNat - 48)) 0

/-- Parse a nonempty run of decimal digits. -/
def parseNatNum (cs : List Char) : Option (Nat × List Char) :=
  let ds := cs.takeWhile Char.isDigit
  if ds.isEmpty then none else some (digitsToNat ds, cs.drop ds.length)

mutual

/-- Recursive descent parser for a JSON value, with fuel to bound the mutual
recursion; whitespace before the value is skipped. -/
def parseJValue (fuel : Nat) (cs : List Char) : Option (JValue × List Char) :=
  match fuel with
  | 0 => none
  | fuel + 1 =>
    match cs.dropWhile isWsChar with
    | 'n' :: 'u' :: 'l' :: 'l' :: rest => some (.jnull, rest)
    | 't' :: 'r' :: 'u' :: 'e' :: rest => some (.jbool true, rest)
    | 'f' :: 'a' :: 'l' :: 's' :: 'e' :: rest => some (.jbool false, rest)
    | '"' :: rest => (parseStringBody rest).map (fun p => (.jstr p.1, p.2))
    | '[' :: rest =>
      match rest.dropWhile isWsChar with
      | ']' :: r2 => some (.jarr [], r2)
      | _ => (parseArrayLoop fuel rest).map (fun p => (.jarr p.1, p.2))
    | '\x7b' :: rest =>
      match rest.dropWhile isWsChar with
      | '\x7d' :: r2 => some (.jobj [], r2)
      | _ => (parseObjectLoop fuel rest).map (fun p => (.jobj p.1, p.2))
    | '-' :: rest => (parseNatNum rest).map (fun p => (.jnum (-(p.1 : Int)), p.2))
    | other => (parseNatNum other).map (fun p => (.jnum (p.1 : Int), p.2))

/-- Parse the comma separated items of a JSON array up to the closing
bracket. -/
def parseArrayLoop (fuel : Nat) (cs : List Char) : Option (List JValue × List Char) :=
  match fuel with
  | 0 => none
  | fuel + 1 =>
    match parseJValue fuel cs with
    | none => none
    | some (v, rest) =>
      match rest.dropWhile isWsChar with
      | ',' :: r2 => (parseArrayLoop fuel r2).map (fun p => (v :: p.1, p.2))
      | ']' :: r2 => some ([v], r2)
      | _ => none

/-- Parse the comma separated fields of a JSON object up to the closing
brace. -/
def parseObjectLoop (fuel : Nat) (cs : List Char) : Option (List (List Char × JValue) × List Char) :=
  match fuel with
  | 0 => none
  | fuel + 1 =>
    match cs.dropWhile isWsChar with
    | '"' :: rest =>
      match parseStringBody rest with
      | none => none
      | some (k, r2) =>
        match r2.dropWhile isWsChar with
        | ':' :: r3 =>
          match parseJValue fuel r3 with
          | none => none
          | some (v, r4) =>
            match r4.dropWhile isWsChar with
            | ',' :: r5 => (parseObjectLoop fuel r5).map (fun p => ((k, v) :: p.1, p.2))
            | '\x7d' :: r5 => some ([(k, v)], r5)
            | _ => none
        | _ => none
    | _ => none

end

/-- Model of json.loads: surrounding whitespace is irrelevant, and the whole
input must be consumed by one JSON value; a parse failure is modelled as none
where the Python function raises json.JSONDecodeError. -/
def jsonLoads (cs : List Char) : Option JValue :=
  let t := pyStrip cs
  match parseJValue (t.length + 1) t with
  | some (v, []) => some v
  | _ => none

/-- Metric events recorded by the process wide monitor:
monitor.log_timing_event and monitor.log_token_usage. -/
inductive Emission where
  | timing (key : List Char)
  | tokenUsage (key modelTag : List Char) (promptTokens completionTokens : Nat)
deriving DecidableEq

/-- Exceptions an adapter attempt can raise: a transport failure from the
network call, the failed assertions of the decode stage, and a JSON decode
failure; all are caught uniformly by the retry loop. -/
inductive AttemptError where
  | transport
  | usageAssert
  | emptyChoicesIndex
  | noToolCallAssert
  | toolNameAssert (name : List Char)
  | jsonDecodeError
  | nullContentAssert
  | emptyContentIndex
deriving DecidableEq

/-- Normalized result of a completion: raw text, a decoded JSON object, or
the dict with name and parsed arguments returned for a tool call. -/
inductive CompletionResult where
  | text (s : List Char)
  | json (v : JValue)
  | toolCall (name : List Char) (arguments : JValue)

/-- One tool call inside an OpenAI style response message: the function name
and the raw argument string. -/
structure OAIToolCall where
  name : List Char
  argumentsStr : List Char
deriving DecidableEq

/-- Token usage attached to an OpenAI style response. -/
structure OAIUsage where
  promptTokens : Nat
  completionTokens : Nat
deriving DecidableEq

/-- The message of one choice of an OpenAI style response. -/
structure OAIMessage where
  content : Option (List Char)
  toolCalls : Option (List OAIToolCall)
deriving DecidableEq

/-- An OpenAI style chat completion response, restricted to the fields the
decode stage of completion_openai reads: the message of each choice, and
usage.  Indexing choices at 0 (line 80) raises on an empty list, between the
timing emission and the usage emission. -/
structure OAIResponse where
  choices : List OAIMessage
  usage : Option OAIUsage
deriving DecidableEq

/-- One attempt of the body of completion_openai in src/skillweaver/lm.py
(lines 48 to 119): the network call is abstracted as an optional response,
none standing for a raised transport error.  The returned list collects the
monitor emissions of the attempt in order.  The tools argument carries the
tool names, matching fn_names built from the name keys of the descriptors. -/
def completionOpenaiAttempt (model : List Char) (jsonMode : Bool)
    (jsonSchema : Option (List Char)) (tools : List (List Char))
    (key : List Char) (net : Option OAIResponse) :
    Except AttemptError CompletionResult × List Emission :=
  match net with
  | none => (.error .transport, [])
  | some resp =>
    let es0 := [Emission.timing ("lm/".toList ++ key)]
    match resp.usage with
    | none => (.error .usageAssert, es0)
    | some u =>
      match resp.choices with
      | [] => (.error .emptyChoicesIndex, es0)
      | msg :: _ =>
        let es := es0 ++
          [Emission.tokenUsage key ("openai:".toList ++ model) u.promptTokens u.completionTokens]
        if 0 < tools.length then
          match msg.toolCalls with
          | some (tc :: _) =>
            if tc.name ∈ tools then
              match jsonLoads tc.argumentsStr with
              | some v => (.ok (.toolCall tc.name v), es)
              | none => (.error .jsonDecodeError, es)
            else (.error (.toolNameAssert tc.name), es)
          | some [] => (.error .noToolCallAssert, es)
          | none => (.error .noToolCallAssert, es)
        else
          match msg.content with
          | none => (.error .nullContentAssert, es)
          | some c =>
            if jsonMode || jsonSchema.isSome then
              match jsonLoads c with
              | some v => (.ok (.json v), es)
              | none => (.error .jsonDecodeError, es)
            else (.ok (.text c), es)

/-- The retry loop shared by completion_openai and completion_anthropic
(for i in range(tries) with tries = 5 and backoff = 4): f i is the outcome
of attempt i, remaining = tries - 1 - i counts the attempts still allowed to
fail with a retry, and backoff is the current delay.  The output is the final
outcome, the list of sleep durations in order, and the number of attempts
executed. -/
def retryAux {E A : Type} (f : Nat → Except E A) (i remaining backoff : Nat) :
    Except E A × List Nat × Nat :=
  match f i with
  | .ok a => (.ok a, [], 1)
  | .error e =>
    match remaining with
    | 0 => (.error e, [], 1)
    | r + 1 =>
      let out := retryAux f (i + 1) r (min 30 (backoff * 2))
      (out.1, backoff :: out.2.1, out.2.2 + 1)

/-- The full retry engine with the constants of the source: tries = 5 and
initial backoff = 4. -/
def completionRetry {E A : Type} (f : Nat → Except E A) :
    Except E A × List Nat × Nat :=
  retryAux f 0 4 4

/-- Message roles of the backend agnostic conversation. -/
inductive Role where
  | system
  | user
  | assistant
deriving DecidableEq

/-- One conversation message; the content is kept as an abstract character
string, since the conversion loop copies it verbatim. -/
structure ChatMsg where
  role : Role
  content : List Char
deriving DecidableEq

/-- One iteration of the conversion loop of completion_anthropic (lines 160
to 167): a system message replaces the system accumulator and is excluded
from the per message array; any other message is appended to the array. -/
def convertStep (acc : Option (List Char) × List ChatMsg) (m : ChatMsg) :
    Option (List Char) × List ChatMsg :=
  if m.role = Role.system then (some m.content, acc.2)
  else (acc.1, acc.2 ++ [m])

/-- The whole conversion loop: returns the final system_message value and the
anthropic_messages array. -/
def convertMessages (msgs : List ChatMsg) : Option (List Char) × List ChatMsg :=
  msgs.foldl convertStep (none, [])

/-- Leading text of the json_instruction string built at line 188. -/
def jsonInstructionPre : List Char :=
  "\n\nYou must respond with valid JSON matching this schema:\n".toList

/-- Trailing text of the json_instruction string built at line 188. -/
def jsonInstructionPost : List Char :=
  "\n\nRespond ONLY with the JSON object, no other text.".toList

/-- The json_instruction string of line 188; schemaStr stands for the
serialization json.dumps of the schema with indent 2. -/
def jsonInstruction (schemaStr : List Char) : List Char :=
  jsonInstructionPre ++ schemaStr ++ jsonInstructionPost

/-- Python truthiness of an optional string: None and the empty string are
falsy. -/
def truthyStr : Option (List Char) → Bool
  | none => false
  | some s => !s.isEmpty

/-- Final value of the system entry of call_args after lines 181 to 192:
set to the system message when truthy, and overwritten with the schema
directive (appended to the truthy system text, or stripped and used alone)
when a JSON schema is requested. -/
def anthropicSystemField (systemMessage : Option (List Char))
    (jsonSchema : Option (List Char)) : Option (List Char) :=
  let base := if truthyStr systemMessage then systemMessage else none
  match jsonSchema with
  | none => base
  | some schemaStr =>
    if truthyStr systemMessage then
      some (systemMessage.getD [] ++ jsonInstruction schemaStr)
    else
      some (pyStrip (jsonInstruction schemaStr))

/-- Values stored in the modelled call_args dictionary. -/
inductive WireV where
  | vstr (s : List Char)
  | vnum (n : Nat)
  | vmsgs (ms : List ChatMsg)
  | varg (v : JValue)

/-- Lookup in an association list dictionary where the last binding for a key
wins, matching Python dict literal, double-star merge and assignment
semantics. -/
def dictGet (k : List Char) (d : List (List Char × WireV)) : Option WireV :=
  (d.reverse.find? (fun kv => kv.1 = k)).map (fun kv => kv.2)

/-- The call_args dictionary built by completion_anthropic (lines 171 to 192)
before the network call: the dict literal with model, messages, a max_tokens
of 32768 and a timeout, merged with the caller args minus max_tokens, then
the system entry assignment.  The float timeout 600.0 is modelled as the
number 600.  Caller argument values are decoded JSON like data. -/
def anthropicCallArgs (model : List Char) (messages : List ChatMsg)
    (jsonSchema : Option (List Char)) (args : List (List Char × JValue)) :
    List (List Char × WireV) :=
  let conv := convertMessages messages
  let base : List (List Char × WireV) :=
    [("model".toList, .vstr model),
     ("messages".toList, .vmsgs conv.2),
     ("max_tokens".toList, .vnum 32768),
     ("timeout".toList, .vnum 600)]
  let merged := base ++
    (args.filter (fun kv => kv.1 ≠ "max_tokens".toList)).map
      (fun kv => (kv.1, WireV.varg kv.2))
  match anthropicSystemField conv.1 jsonSchema with
  | none => merged
  | some s => merged ++ [("system".toList, .vstr s)]

/-- The characters of the bare Markdown fence marker. -/
def threeTicks : List Char := ['`', '`', '`']

/-- The characters of the JSON Markdown fence marker. -/
def ticksJson : List Char := ['`', '`', '`', 'j', 's', 'o', 'n']

/-- Fence stripping of the anthropic decode stage (lines 210 to 213):
content.split on the JSON fence marker, index 1, split on the bare marker,
index 0, stripped; with the analogous bare fence branch. -/
def stripFences (content : List Char) : List Char :=
  if occursIn ticksJson content then
    pyStrip (idxD (splitOnSub threeTicks (idxD (splitOnSub ticksJson content) 1)) 0)
  else if occursIn threeTicks content then
    pyStrip (idxD (splitOnSub threeTicks (idxD (splitOnSub threeTicks content) 1)) 0)
  else content

/-- Token usage of an anthropic response; the attribute reads at lines 200
to 201 cannot fail, so the fields are total. -/
structure AnthUsage where
  inputTokens : Nat
  outputTokens : Nat
deriving DecidableEq

/-- An anthropic response, restricted to the fields the decode stage reads:
the text of each content block, and usage. -/
structure AnthResponse where
  contentTexts : List (List Char)
  usage : AnthUsage
deriving DecidableEq

/-- Outcome of one attempt of completion_anthropic: the call_args sent on the
wire, the result or raised error, and the monitor emissions in order. -/
structure AnthOutcome where
  wire : List (List Char × WireV)
  result : Except AttemptError CompletionResult
  emissions : List Emission

/-- One attempt of the body of completion_anthropic in src/skillweaver/lm.py
(lines 153 to 217).  The tools parameter is accepted, exactly as in the
source signature, and is read nowhere in the body.  The network call is
abstracted as an optional response, none standing for a raised transport
error.  Indexing response.content at 0 raises when the block list is
empty. -/
def completionAnthropicAttempt (model : List Char) (messages : List ChatMsg)
    (jsonMode : Bool) (jsonSchema : Option (List Char))
    (tools : List (List Char)) (args : List (List Char × JValue))
    (key : List Char) (net : Option AnthResponse) : AnthOutcome :=
  let wire := anthropicCallArgs model messages jsonSchema args
  match net with
  | none => ⟨wire, .error .transport, []⟩
  | some resp =>
    let es := [Emission.timing ("lm/".toList ++ key),
      Emission.tokenUsage key ("anthropic:".toList ++ model)
        resp.usage.inputTokens resp.usage.outputTokens]
    match resp.contentTexts with
    | [] => ⟨wire, .error .emptyContentIndex, es⟩
    | c :: _ =>
      if jsonMode || jsonSchema.isSome then
        match jsonLoads (stripFences c) with
        | some v => ⟨wire, .ok (.json v), es⟩
        | none => ⟨wire, .error .jsonDecodeError, es⟩
      else ⟨wire, .ok (.text c), es⟩

/-- The client a call to _get_client resolves to. -/
inductive ClientSpec where
  | anthropicClient (apiKey : List Char)
  | openaiWithBase (baseUrl apiKey : List Char)
  | azureClient (endpoint apiKey apiVersion : List Char)
  | openaiDefault
deriving DecidableEq

/-- Errors raised by _get_client: the ValueError for a missing anthropic key
and the failed assertion for missing azure configuration. -/
inductive ClientError where
  | missingAnthropicKey
  | missingAzureConfig
deriving DecidableEq

/-- Characterwise lowering, modelling str.lower for the ascii names used. -/
def lowerCs (cs : List Char) : List Char := cs.map Char.toLower

/-- Model of model_name.replace of a dash by an underscore. -/
def replaceDash (cs : List Char) : List Char :=
  cs.map (fun c => if c = '-' then '_' else c)

/-- The api version extracted from an azure endpoint: the last segment of the
split on the equals sign (line 304). -/
def azureApiVersion (endpoint : List Char) : List Char :=
  (splitOnSub ['='] endpoint).getLastD []

/-- The azure or default branch of _get_client (lines 293 to 313): when the
AZURE_OPENAI variable equals 1, look up the per model endpoint and key,
asserting both are present; otherwise the default OpenAI client. -/
def azureOrDefault (env : List Char → Option (List Char)) (modelName : List Char) :
    Except ClientError ClientSpec :=
  if (env "AZURE_OPENAI".toList).getD "0".toList = "1".toList then
    match env ("AZURE_OPENAI_".toList ++ replaceDash modelName ++ "_ENDPOINT".toList),
      env ("AZURE_OPENAI_".toList ++ replaceDash modelName ++ "_API_KEY".toList) with
    | some ep, some k => .ok (.azureClient ep k (azureApiVersion ep))
    | _, _ => .error .missingAzureConfig
  else .ok .openaiDefault

/-- Model of _get_client in src/skillweaver/lm.py (lines 264 to 313), with
the environment as a lookup function.  A model whose lowered name starts with
claude resolves to the anthropic client, requiring a truthy key; otherwise a
truthy LOCAL_MODEL_API_BASE redirects to that base url with the placeholder
credential, but only when gpt does not occur in the model name; otherwise
azure or the default client. -/
def getClient (env : List Char → Option (List Char)) (modelName : List Char) :
    Except ClientError ClientSpec :=
  if ("claude".toList).isPrefixOf (lowerCs modelName) then
    match env "ANTHROPIC_API_KEY".toList with
    | none => .error .missingAnthropicKey
    | some k => if k.isEmpty then .error .missingAnthropicKey else .ok (.anthropicClient k)
  else
    match env "LOCAL_MODEL_API_BASE".toList with
    | some b =>
      if !b.isEmpty && !(occursIn "gpt".toList modelName) then
        .ok (.openaiWithBase b "not-needed".toList)
      else azureOrDefault env modelName
    | none => azureOrDefault env modelName

/-- Events of one logical call through the concurrency gate: acquiring the
semaphore, executing one adapter attempt, sleeping during backoff, and
releasing the semaphore. -/
inductive GateAction where
  | acquire
  | attemptStep
  | sleepStep
  | release
deriving DecidableEq

/-- The attempt and sleep events of a retry run with n sleeps: an attempt,
then alternately a sleep and the next attempt. -/
def retryEvents : Nat → List GateAction
  | 0 => [.attemptStep]
  | n + 1 => .attemptStep :: .sleepStep :: retryEvents n

/-- The event program of one call of the LM facade (lines 366 to 407): the
body of async with self.semaphore is the whole adapter invocation with its
retries, so the acquire precedes every attempt and sleep and the release
follows them all. -/
def callProgram {E A : Type} (f : Nat → Except E A) : List GateAction :=
  GateAction.acquire :: retryEvents (completionRetry f).2.1.length ++ [GateAction.release]

/-- A cooperatively scheduled task: whether it currently holds a semaphore
unit, and its remaining events. -/
structure GateTask where
  holds : Bool
  rest : List GateAction
deriving DecidableEq

/-- Number of tasks currently holding a semaphore unit. -/
def heldCount (ts : List GateTask) : Nat := (ts.filter (fun t => t.holds)).length

/-- Interleaving semantics of asyncio tasks sharing one semaphore of the
given limit: at each step one task runs its next event.  An acquire only
proceeds while the held count is below the limit, which is the semantics of
asyncio.Semaphore; attempts and sleeps are suspension points that change no
gate state; a release gives the unit back. -/
inductive GateStep (limit : Nat) : List GateTask → List GateTask → Prop where
  | acquire (pre post : List GateTask) (h : Bool) (r : List GateAction)
      (hcount : heldCount (pre ++ ⟨h, GateAction.acquire :: r⟩ :: post) < limit) :
      GateStep limit (pre ++ ⟨h, GateAction.acquire :: r⟩ :: post)
        (pre ++ ⟨true, r⟩ :: post)
  | middle (pre post : List GateTask) (h : Bool) (a : GateAction)
      (r : List GateAction) (ha : a = GateAction.attemptStep ∨ a = GateAction.sleepStep) :
      GateStep limit (pre ++ ⟨h, a :: r⟩ :: post) (pre ++ ⟨h, r⟩ :: post)
  | release (pre post : List GateTask) (h : Bool) (r : List GateAction) :
      GateStep limit (pre ++ ⟨h, GateAction.release :: r⟩ :: post)
        (pre ++ ⟨false, r⟩ :: post)

/-- Reachability under the interleaving semantics. -/
def GateReachable (limit : Nat) : List GateTask → List GateTask → Prop :=
  Relation.ReflTransGen (GateStep limit)

/-- Initial state: every logical call is a task that holds nothing and has
its whole program ahead. -/
def initTasks (progs : List (List GateAction)) : List GateTask :=
  progs.map (fun p => ⟨false, p⟩)

/-- A payload wrapped in a JSON Markdown fence, as in the testable property
of the spec: the fence marker and a newline before the payload, a newline
and the closing marker after it. -/
def wrapJsonFence (s : List Char) : List Char :=
  ticksJson ++ '\n' :: (s ++ '\n' :: threeTicks)

/-- A payload wrapped in a bare Markdown fence. -/
def wrapBareFence (s : List Char) : List Char :=
  threeTicks ++ '\n' :: (s ++ '\n' :: threeTicks)

/-- The anthropic decode of a reply body in json mode: fence stripping
followed by json.loads (lines 208 to 215). -/
def anthropicDecode (content : List Char) : Option JValue :=
  jsonLoads (stripFences content)

theorem retryAux_ok {E A : Type} (f : Nat → Except E A) (i rem b : Nat)
    (a : A) (h : f i = Except.ok a) :
    retryAux f i rem b = (Except.ok a, [], 1) := by
  rw [retryAux.eq_def, h]

theorem retryAux_err_zero {E A : Type} (f : Nat → Except E A) (i b : Nat)
    (e : E) (h : f i = Except.error e) :
    retryAux f i 0 b = (Except.error e, [], 1) := by
  rw [retryAux.eq_def, h]

theorem retryAux_err_succ {E A : Type} (f : Nat → Except E A) (i r b : Nat)
    (e : E) (h : f i = Except.error e) :
    retryAux f i (r + 1) b =
      ((retryAux f (i + 1) r (min 30 (b * 2))).1,
       b :: (retryAux f (i + 1) r (min 30 (b * 2))).2.1,
       (retryAux f (i + 1) r (min 30 (b * 2))).2.2 + 1) := by
  rw [retryAux.eq_def, h]

theorem min_thirty_shift (c k : Nat) :
    min 30 (min 30 c * 2 ^ k) = min 30 (c * 2 ^ k) := by
  rcases le_or_lt c 30 with h | h
  · rw [Nat.min_eq_right h]
  · have h2 : 1 ≤ 2 ^ k := Nat.one_le_two_pow
    have hc : 30 ≤ c * 2 ^ k := by
      calc 30 ≤ c := Nat.le_of_lt h
        _ = c * 1 := (Nat.mul_one c).symm
        _ ≤ c * 2 ^ k := Nat.mul_le_mul_left c h2
    have h30 : 30 ≤ 30 * 2 ^ k := Nat.le_mul_of_pos_right 30 h2
    rw [Nat.min_eq_left (Nat.le_of_lt h), Nat.min_eq_left h30, Nat.min_eq_left hc]

theorem retryAux_spec {E A : Type} (f : Nat → Except E A) :
    ∀ rem i b, b ≤ 30 →
      (retryAux f i rem b).2.1.length ≤ rem ∧
      (retryAux f i rem b).2.2 = (retryAux f i rem b).2.1.length + 1 ∧
      ∀ k (hk : k < (retryAux f i rem b).2.1.length),
        (retryAux f i rem b).2.1.get ⟨k, hk⟩ = min 30 (b * 2 ^ k) := by
  intro rem
  induction rem with
  | zero =>
    intro i b _
    cases hf : f i with
    | ok a => rw [retryAux_ok f i 0 b a hf]; simp
    | error e => rw [retryAux_err_zero f i b e hf]; simp
  | succ r ih =>
    intro i b hb
    cases hf : f i with
    | ok a => rw [retryAux_ok f i (r + 1) b a hf]; simp
    | error e =>
      have hb2 : min 30 (b * 2) ≤ 30 := Nat.min_le_left _ _
      obtain ⟨ihl, iha, ihg⟩ := ih (i + 1) (min 30 (b * 2)) hb2
      rw [retryAux_err_succ f i r b e hf]
      refine ⟨?_, ?_, ?_⟩
      · simpa using Nat.succ_le_succ ihl
      · simp [iha]
      · intro k hk
        match k with
        | 0 =>
          simpa using (Nat.min_eq_right hb).symm
        | k + 1 =>
          have hk' : k < (retryAux f (i + 1) r (min 30 (b * 2))).2.1.length := by
            simpa using hk
          have hgg := ihg k hk'
          simp only [List.get_cons_succ]
          rw [hgg, min_thirty_shift, Nat.pow_succ]
          ring_nf

/-- C2: every completion call executes at most 5 attempts, and the sleep
before attempt N+1 after the Nth failure is min 30 (4 * 2 ^ (N - 1)) time
units with no jitter, so the successive delays are 4, 8, 16, 30.  Sleeps are
indexed from zero here, so the delay after failed attempt k+1 is entry k. -/
theorem claim2_retry_backoff {E A : Type} (f : Nat → Except E A) :
    (completionRetry f).2.2 ≤ 5 ∧
    (completionRetry f).2.2 = (completionRetry f).2.1.length + 1 ∧
    (completionRetry f).2.1.length ≤ 4 ∧
    ∀ k (hk : k < (completionRetry f).2.1.length),
      (completionRetry f).2.1.get ⟨k, hk⟩ = min 30 (4 * 2 ^ k) ∧
      (completionRetry f).2.1.get ⟨k, hk⟩ = [4, 8, 16, 30].getD k 0 := by
  obtain ⟨hl, ha, hg⟩ := retryAux_spec f 4 0 4 (by norm_num)
  simp only [completionRetry]
  refine ⟨by omega, ha, hl, ?_⟩
  intro k hk
  have hk4 : k < 4 := Nat.lt_of_lt_of_le hk hl
  have hval : ∀ m, m < 4 → min 30 (4 * 2 ^ m) = [4, 8, 16, 30].getD m 0 := by decide
  exact ⟨hg k hk, by rw [hg k hk, hval k hk4]⟩

/-- Witness for C2 at a concrete always failing operation. -/
theorem claim2_retry_backoff_witness :
    (completionRetry (fun i => (Except.error i : Except Nat Nat))).2.2 ≤ 5 ∧
    (completionRetry (fun i => (Except.error i : Except Nat Nat))).2.1.get
      ⟨0, by decide⟩ = min 30 (4 * 2 ^ 0) := by
  refine ⟨(claim2_retry_backoff (fun i => (Except.error i : Except Nat Nat))).1, ?_⟩
  exact ((claim2_retry_backoff
    (fun i => (Except.error i : Except Nat Nat))).2.2.2 0 (by decide)).1

/-- C3: when all five attempts fail, the call surfaces the most recent
underlying failure verbatim, after the capped backoff schedule 4, 8, 16, 30,
and no partial result is returned. -/
theorem claim3_retry_exhaustion {E A : Type} (f : Nat → Except E A)
    (errs : Nat → E) (hf : ∀ j, j < 5 → f j = Except.error (errs j)) :
    (completionRetry f).1 = Except.error (errs 4) ∧
    (completionRetry f).2.1 = [4, 8, 16, 30] := by
  have e4 : retryAux f 4 0 30 = (Except.error (errs 4), [], 1) :=
    retryAux_err_zero f 4 30 (errs 4) (hf 4 (by norm_num))
  have e3 : retryAux f 3 1 30 = (Except.error (errs 4), [30], 2) := by
    rw [retryAux_err_succ f 3 0 30 (errs 3) (hf 3 (by norm_num))]
    norm_num [e4]
  have e2 : retryAux f 2 2 16 = (Except.error (errs 4), [16, 30], 3) := by
    rw [retryAux_err_succ f 2 1 16 (errs 2) (hf 2 (by norm_num))]
    norm_num [e3]
  have e1 : retryAux f 1 3 8 = (Except.error (errs 4), [8, 16, 30], 4) := by
    rw [retryAux_err_succ f 1 2 8 (errs 1) (hf 1 (by norm_num))]
    norm_num [e2]
  have e0 : retryAux f 0 4 4 = (Except.error (errs 4), [4, 8, 16, 30], 5) := by
    rw [retryAux_err_succ f 0 3 4 (errs 0) (hf 0 (by norm_num))]
    norm_num [e1]
  rw [completionRetry, e0]
  exact ⟨rfl, rfl⟩

/-- Witness for C3 at a concrete always failing operation. -/
theorem claim3_retry_exhaustion_witness :
    (completionRetry (fun i => (Except.error i : Except Nat Nat))).1 =
      Except.error 4 ∧
    (completionRetry (fun i => (Except.error i : Except Nat Nat))).2.1 =
      [4, 8, 16, 30] :=
  claim3_retry_exhaustion (fun i => (Except.error i : Except Nat Nat))
    (fun i => i) (fun _ _ => rfl)

/-- C1: for a request with a nonempty tools list served by the OpenAI style
adapter, a successful attempt result is a tool invocation whose name is a
member of the requested tool names and whose argument string parses as JSON;
and when the response carries no tool call, an unknown tool name, or
unparseable arguments, the attempt raises instead of returning. -/
theorem claim1_openai_tool_contract
    (model : List Char) (jsonMode : Bool) (jsonSchema : Option (List Char))
    (tools : List (List Char)) (key : List Char) (net : Option OAIResponse)
    (htools : tools ≠ []) :
    (∀ r, (completionOpenaiAttempt model jsonMode jsonSchema tools key net).1 =
        Except.ok r →
      ∃ resp u msg rest0 tc rest v,
        net = some resp ∧ resp.usage = some u ∧
        resp.choices = msg :: rest0 ∧
        msg.toolCalls = some (tc :: rest) ∧
        tc.name ∈ tools ∧ jsonLoads tc.argumentsStr = some v ∧
        r = CompletionResult.toolCall tc.name v) ∧
    (∀ resp, net = some resp →
      (resp.choices = [] →
        ∃ e, (completionOpenaiAttempt model jsonMode jsonSchema tools key net).1 =
          Except.error e) ∧
      (∀ msg rest0, resp.choices = msg :: rest0 →
        ((msg.toolCalls = none ∨ msg.toolCalls = some []) →
          ∃ e, (completionOpenaiAttempt model jsonMode jsonSchema tools key net).1 =
            Except.error e) ∧
        (∀ tc rest, msg.toolCalls = some (tc :: rest) →
          (tc.name ∉ tools ∨ jsonLoads tc.argumentsStr = none) →
          ∃ e, (completionOpenaiAttempt model jsonMode jsonSchema tools key net).1 =
            Except.error e))) := by
  have ht : 0 < tools.length := List.length_pos.mpr htools
  cases net with
  | none =>
    refine ⟨?_, ?_⟩
    · intro r hr
      simp [completionOpenaiAttempt] at hr
    · intro resp hre
      simp at hre
  | some resp =>
    cases hu : resp.usage with
    | none =>
      refine ⟨?_, ?_⟩
      · intro r hr
        simp [completionOpenaiAttempt, hu] at hr
      · intro resp2 hre
        obtain rfl := Option.some.inj hre
        exact ⟨fun _ => ⟨.usageAssert, by simp [completionOpenaiAttempt, hu]⟩,
          fun _ _ _ => ⟨fun _ => ⟨.usageAssert, by simp [completionOpenaiAttempt, hu]⟩,
            fun _ _ _ _ => ⟨.usageAssert, by simp [completionOpenaiAttempt, hu]⟩⟩⟩
    | some u =>
      cases hch : resp.choices with
      | nil =>
        refine ⟨?_, ?_⟩
        · intro r hr
          simp [completionOpenaiAttempt, hu, hch] at hr
        · intro resp2 hre
          obtain rfl := Option.some.inj hre
          refine ⟨fun _ =>
            ⟨.emptyChoicesIndex, by simp [completionOpenaiAttempt, hu, hch]⟩,
            fun msg rest0 hch2 => ?_⟩
          rw [hch] at hch2
          simp at hch2
      | cons msg rest0 =>
        have hchcon : ∀ msg2 rest2, resp.choices = msg2 :: rest2 →
            msg2 = msg ∧ rest2 = rest0 := by
          intro msg2 rest2 hch2
          rw [hch] at hch2
          exact ⟨(List.cons.inj hch2).1.symm, (List.cons.inj hch2).2.symm⟩
        cases htc : msg.toolCalls with
        | none =>
          refine ⟨?_, ?_⟩
          · intro r hr
            simp [completionOpenaiAttempt, hu, hch, htc, ht] at hr
          · intro resp2 hre
            obtain rfl := Option.some.inj hre
            refine ⟨fun hcon => by rw [hch] at hcon; simp at hcon,
              fun msg2 rest2 hch2 => ?_⟩
            obtain ⟨rfl, rfl⟩ := hchcon msg2 rest2 hch2
            refine ⟨fun _ =>
              ⟨.noToolCallAssert, by simp [completionOpenaiAttempt, hu, hch, htc, ht]⟩,
              fun tc rest htc2 _ => ?_⟩
            rw [htc] at htc2
            simp at htc2
        | some l =>
          cases l with
          | nil =>
            refine ⟨?_, ?_⟩
            · intro r hr
              simp [completionOpenaiAttempt, hu, hch, htc, ht] at hr
            · intro resp2 hre
              obtain rfl := Option.some.inj hre
              refine ⟨fun hcon => by rw [hch] at hcon; simp at hcon,
                fun msg2 rest2 hch2 => ?_⟩
              obtain ⟨rfl, rfl⟩ := hchcon msg2 rest2 hch2
              refine ⟨fun _ =>
                ⟨.noToolCallAssert, by simp [completionOpenaiAttempt, hu, hch, htc, ht]⟩,
                fun tc rest htc2 _ => ?_⟩
              rw [htc] at htc2
              simp at htc2
          | cons tc rest =>
            by_cases hmem : tc.name ∈ tools
            · cases hj : jsonLoads tc.argumentsStr with
              | none =>
                refine ⟨?_, ?_⟩
                · intro r hr
                  simp [completionOpenaiAttempt, hu, hch, htc, ht, hmem, hj] at hr
                · intro resp2 hre
                  obtain rfl := Option.some.inj hre
                  refine ⟨fun hcon => by rw [hch] at hcon; simp at hcon,
                    fun msg2 rest2 hch2 => ?_⟩
                  obtain ⟨rfl, rfl⟩ := hchcon msg2 rest2 hch2
                  refine ⟨fun hcon => by rw [htc] at hcon; simp at hcon,
                    fun tc2 rest2 htc2 _ =>
                    ⟨.jsonDecodeError,
                      by simp [completionOpenaiAttempt, hu, hch, htc, ht, hmem, hj]⟩⟩
              | some v =>
                refine ⟨?_, ?_⟩
                · intro r hr
                  simp [completionOpenaiAttempt, hu, hch, htc, ht, hmem, hj] at hr
                  exact ⟨resp, u, msg, rest0, tc, rest, v, rfl, hu, hch, htc,
                    hmem, hj, hr.symm⟩
                · intro resp2 hre
                  obtain rfl := Option.some.inj hre
                  refine ⟨fun hcon => by rw [hch] at hcon; simp at hcon,
                    fun msg2 rest2 hch2 => ?_⟩
                  obtain ⟨rfl, rfl⟩ := hchcon msg2 rest2 hch2
                  refine ⟨fun hcon => by rw [htc] at hcon; simp at hcon,
                    fun tc2 rest2 htc2 hbad => ?_⟩
                  rw [htc] at htc2
                  obtain ⟨rfl, rfl⟩ : tc2 = tc ∧ rest2 = rest := by
                    constructor <;> [exact (List.cons.inj (Option.some.inj htc2)).1.symm;
                      exact (List.cons.inj (Option.some.inj htc2)).2.symm]
                  rcases hbad with hbad | hbad
                  · exact absurd hmem hbad
                  · rw [hj] at hbad
                    simp at hbad
            · refine ⟨?_, ?_⟩
              · intro r hr
                simp [completionOpenaiAttempt, hu, hch, htc, ht, hmem] at hr
              · intro resp2 hre
                obtain rfl := Option.some.inj hre
                refine ⟨fun hcon => by rw [hch] at hcon; simp at hcon,
                  fun msg2 rest2 hch2 => ?_⟩
                obtain ⟨rfl, rfl⟩ := hchcon msg2 rest2 hch2
                refine ⟨fun hcon => by rw [htc] at hcon; simp at hcon,
                  fun tc2 rest2 htc2 _ =>
                  ⟨.toolNameAssert tc.name,
                    by simp [completionOpenaiAttempt, hu, hch, htc, ht, hmem]⟩⟩

/-- Witness for C1: a concrete response with a valid tool call named pick. -/
theorem claim1_openai_tool_contract_witness :
    ∃ resp u msg rest0 tc rest v,
      (some (OAIResponse.mk [OAIMessage.mk none (some [OAIToolCall.mk "pick".toList "7".toList])]
          (some (OAIUsage.mk 3 5))) : Option OAIResponse) = some resp ∧
      resp.usage = some u ∧
      resp.choices = msg :: rest0 ∧
      msg.toolCalls = some (tc :: rest) ∧
      tc.name ∈ ["pick".toList] ∧ jsonLoads tc.argumentsStr = some v ∧
      CompletionResult.toolCall "pick".toList (JValue.jnum 7) =
        CompletionResult.toolCall tc.name v :=
  (claim1_openai_tool_contract "gpt-4o".toList false none ["pick".toList]
    "general".toList
    (some (OAIResponse.mk [OAIMessage.mk none (some [OAIToolCall.mk "pick".toList "7".toList])]
      (some (OAIUsage.mk 3 5))))
    (by decide)).1 (CompletionResult.toolCall "pick".toList (JValue.jnum 7)) rfl

theorem dictGet_nil (k : List Char) : dictGet k [] = none := rfl

theorem dictGet_append_one (k k2 : List Char) (v : WireV)
    (d : List (List Char × WireV)) :
    dictGet k (d ++ [(k2, v)]) = if k2 = k then some v else dictGet k d := by
  by_cases h : k2 = k
  · simp [dictGet, List.find?_cons, h]
  · simp [dictGet, List.find?_cons, h]

theorem dictGet_append_right_none (k : List Char)
    (d d2 : List (List Char × WireV)) (h : ∀ kv ∈ d2, kv.1 ≠ k) :
    dictGet k (d ++ d2) = dictGet k d := by
  simp only [dictGet, List.reverse_append, List.find?_append]
  have hnone : d2.reverse.find? (fun kv => kv.1 = k) = none := by
    rw [List.find?_eq_none]
    intro x hx
    simpa using h x (List.mem_reverse.mp hx)
  rw [hnone]
  simp

theorem mapped_filter_keys_ne (args : List (List Char × JValue)) :
    ∀ kv ∈ (args.filter (fun kv => kv.1 ≠ "max_tokens".toList)).map
      (fun kv => (kv.1, WireV.varg kv.2)), kv.1 ≠ "max_tokens".toList := by
  intro kv hkv
  obtain ⟨kv1, h1, rfl⟩ := List.mem_map.mp hkv
  have h2 := List.mem_filter.mp h1
  simpa using h2.2

theorem anthropic_max_tokens (model : List Char) (messages : List ChatMsg)
    (jsonSchema : Option (List Char)) (args : List (List Char × JValue)) :
    dictGet "max_tokens".toList (anthropicCallArgs model messages jsonSchema args) =
      some (WireV.vnum 32768) := by
  have hbase : dictGet "max_tokens".toList
      [("model".toList, WireV.vstr model),
       ("messages".toList, WireV.vmsgs (convertMessages messages).2),
       ("max_tokens".toList, WireV.vnum 32768),
       ("timeout".toList, WireV.vnum 600)] = some (WireV.vnum 32768) := by
    have h1 : [("model".toList, WireV.vstr model),
        ("messages".toList, WireV.vmsgs (convertMessages messages).2),
        ("max_tokens".toList, WireV.vnum 32768),
        ("timeout".toList, WireV.vnum 600)] =
        ([("model".toList, WireV.vstr model),
          ("messages".toList, WireV.vmsgs (convertMessages messages).2)] ++
          [("max_tokens".toList, WireV.vnum 32768)]) ++
          [("timeout".toList, WireV.vnum 600)] := rfl
    rw [h1, dictGet_append_one, if_neg (by decide), dictGet_append_one,
      if_pos rfl]
  have hmerged : dictGet "max_tokens".toList
      ([("model".toList, WireV.vstr model),
        ("messages".toList, WireV.vmsgs (convertMessages messages).2),
        ("max_tokens".toList, WireV.vnum 32768),
        ("timeout".toList, WireV.vnum 600)] ++
       (args.filter (fun kv => kv.1 ≠ "max_tokens".toList)).map
         (fun kv => (kv.1, WireV.varg kv.2))) = some (WireV.vnum 32768) := by
    rw [dictGet_append_right_none _ _ _ (mapped_filter_keys_ne args)]
    exact hbase
  simp only [anthropicCallArgs]
  cases hs : anthropicSystemField (convertMessages messages).1 jsonSchema with
  | none => exact hmerged
  | some s =>
    rw [dictGet_append_one, if_neg (by decide)]
    exact hmerged

/-- C10: every anthropic call attempt carries an explicit token cap on the
wire; a fixed default of 32768 is supplied when the caller args do not
override max_tokens (in fact the caller key is filtered out, so the cap is
always the default). -/
theorem claim10_anthropic_max_tokens (model : List Char) (messages : List ChatMsg)
    (jsonSchema : Option (List Char)) (args : List (List Char × JValue)) :
    ((∀ v, ("max_tokens".toList, v) ∉ args) →
      dictGet "max_tokens".toList (anthropicCallArgs model messages jsonSchema args) =
        some (WireV.vnum 32768)) ∧
    (dictGet "max_tokens".toList
      (anthropicCallArgs model messages jsonSchema args)).isSome = true := by
  refine ⟨fun _ => anthropic_max_tokens model messages jsonSchema args, ?_⟩
  rw [anthropic_max_tokens model messages jsonSchema args]
  rfl

/-- Witness for C10 at a concrete request with empty caller args. -/
theorem claim10_anthropic_max_tokens_witness :
    dictGet "max_tokens".toList
      (anthropicCallArgs "claude-3-opus".toList
        [ChatMsg.mk Role.user "hi".toList] none []) = some (WireV.vnum 32768) :=
  (claim10_anthropic_max_tokens "claude-3-opus".toList
    [ChatMsg.mk Role.user "hi".toList] none []).1 (by simp)

theorem anthAttempt_wire (model : List Char) (messages : List ChatMsg)
    (jsonMode : Bool) (jsonSchema : Option (List Char))
    (tools : List (List Char)) (args : List (List Char × JValue))
    (key : List Char) (net : Option AnthResponse) :
    (completionAnthropicAttempt model messages jsonMode jsonSchema tools args key net).wire =
      anthropicCallArgs model messages jsonSchema args := by
  unfold completionAnthropicAttempt
  cases net with
  | none => rfl
  | some resp =>
    cases hct : resp.contentTexts with
    | nil => simp only [hct]
    | cons c cs =>
      simp only [hct]
      by_cases hb : (jsonMode || jsonSchema.isSome) = true
      · simp only [hb, if_true]
        cases hjl : jsonLoads (stripFences c) <;> simp [hjl]
      · simp only [Bool.not_eq_true] at hb
        simp only [hb, Bool.false_eq_true, if_false]

theorem anthAttempt_result_shape (model : List Char) (messages : List ChatMsg)
    (jsonMode : Bool) (jsonSchema : Option (List Char))
    (tools : List (List Char)) (args : List (List Char × JValue))
    (key : List Char) (net : Option AnthResponse) :
    (∃ s, (completionAnthropicAttempt model messages jsonMode jsonSchema tools args key net).result
      = Except.ok (CompletionResult.text s)) ∨
    (∃ v, (completionAnthropicAttempt model messages jsonMode jsonSchema tools args key net).result
      = Except.ok (CompletionResult.json v)) ∨
    (completionAnthropicAttempt model messages jsonMode jsonSchema tools args key net).result
      = Except.error AttemptError.transport ∨
    (completionAnthropicAttempt model messages jsonMode jsonSchema tools args key net).result
      = Except.error AttemptError.emptyContentIndex ∨
    (completionAnthropicAttempt model messages jsonMode jsonSchema tools args key net).result
      = Except.error AttemptError.jsonDecodeError := by
  unfold completionAnthropicAttempt
  cases net with
  | none => simp
  | some resp =>
    cases hct : resp.contentTexts with
    | nil => simp [hct]
    | cons c cs =>
      by_cases hb : (jsonMode || jsonSchema.isSome) = true
      · cases hjl : jsonLoads (stripFences c) with
        | none => simp [hct, hb, hjl]
        | some v => simp [hct, hb, hjl]
      · simp [hct, hb]

theorem dictGet_tools_anthropic (model : List Char) (messages : List ChatMsg)
    (jsonSchema : Option (List Char)) (args : List (List Char × JValue))
    (hargs : ∀ kv ∈ args, kv.1 ≠ "tools".toList) :
    dictGet "tools".toList (anthropicCallArgs model messages jsonSchema args) = none := by
  have hmap : ∀ kv ∈ (args.filter (fun kv => kv.1 ≠ "max_tokens".toList)).map
      (fun kv => (kv.1, WireV.varg kv.2)), kv.1 ≠ "tools".toList := by
    intro kv hkv
    obtain ⟨kv1, h1, rfl⟩ := List.mem_map.mp hkv
    exact hargs kv1 (List.mem_filter.mp h1).1
  have hbase : dictGet "tools".toList
      [("model".toList, WireV.vstr model),
       ("messages".toList, WireV.vmsgs (convertMessages messages).2),
       ("max_tokens".toList, WireV.vnum 32768),
       ("timeout".toList, WireV.vnum 600)] = none := by
    have h1 : [("model".toList, WireV.vstr model),
        ("messages".toList, WireV.vmsgs (convertMessages messages).2),
        ("max_tokens".toList, WireV.vnum 32768),
        ("timeout".toList, WireV.vnum 600)] =
        ((([] ++ [("model".toList, WireV.vstr model)]) ++
          [("messages".toList, WireV.vmsgs (convertMessages messages).2)]) ++
          [("max_tokens".toList, WireV.vnum 32768)]) ++
          [("timeout".toList, WireV.vnum 600)] := rfl
    rw [h1, dictGet_append_one, if_neg (by decide), dictGet_append_one,
      if_neg (by decide), dictGet_append_one, if_neg (by decide),
      dictGet_append_one, if_neg (by decide)]
    exact dictGet_nil _
  have hmerged : dictGet "tools".toList
      ([("model".toList, WireV.vstr model),
        ("messages".toList, WireV.vmsgs (convertMessages messages).2),
        ("max_tokens".toList, WireV.vnum 32768),
        ("timeout".toList, WireV.vnum 600)] ++
       (args.filter (fun kv => kv.1 ≠ "max_tokens".toList)).map
         (fun kv => (kv.1, WireV.varg kv.2))) = none := by
    rw [dictGet_append_right_none _ _ _ hmap]
    exact hbase
  simp only [anthropicCallArgs]
  cases hs : anthropicSystemField (convertMessages messages).1 jsonSchema with
  | none => exact hmerged
  | some s =>
    rw [dictGet_append_one, if_neg (by decide)]
    exact hmerged

/-- C5: the anthropic style adapter silently ignores a nonempty tools list:
the attempt is unchanged under any replacement of the tools argument, no
tools entry reaches the wire dictionary (when the caller args carry none),
the result is never a tool call variant, and no missing or unknown tool call
violation is ever raised. -/
theorem claim5_anthropic_ignores_tools (model : List Char)
    (messages : List ChatMsg) (jsonMode : Bool) (jsonSchema : Option (List Char))
    (tools tools2 : List (List Char)) (args : List (List Char × JValue))
    (key : List Char) (net : Option AnthResponse) :
    completionAnthropicAttempt model messages jsonMode jsonSchema tools args key net =
      completionAnthropicAttempt model messages jsonMode jsonSchema tools2 args key net ∧
    ((∀ kv ∈ args, kv.1 ≠ "tools".toList) →
      dictGet "tools".toList
        (completionAnthropicAttempt model messages jsonMode jsonSchema tools args key net).wire
        = none) ∧
    (∀ r, (completionAnthropicAttempt model messages jsonMode jsonSchema tools args key net).result
        = Except.ok r → ∀ n a, r ≠ CompletionResult.toolCall n a) ∧
    (∀ e, (completionAnthropicAttempt model messages jsonMode jsonSchema tools args key net).result
        = Except.error e →
      e ≠ AttemptError.noToolCallAssert ∧ ∀ n, e ≠ AttemptError.toolNameAssert n) := by
  refine ⟨rfl, ?_, ?_, ?_⟩
  · intro hargs
    rw [anthAttempt_wire]
    exact dictGet_tools_anthropic model messages jsonSchema args hargs
  · intro r hr n a
    rcases anthAttempt_result_shape model messages jsonMode jsonSchema tools args
        key net with ⟨s, h⟩ | ⟨v, h⟩ | h | h | h <;> rw [h] at hr
    · cases Except.ok.inj hr
      intro hcon
      cases hcon
    · cases Except.ok.inj hr
      intro hcon
      cases hcon
    all_goals cases hr
  · intro e he
    rcases anthAttempt_result_shape model messages jsonMode jsonSchema tools args
        key net with ⟨s, h⟩ | ⟨v, h⟩ | h | h | h <;> rw [h] at he
    · cases he
    · cases he
    all_goals {
      cases Except.error.inj he
      exact ⟨(fun hcon => by cases hcon), (fun n hcon => by cases hcon)⟩
    }

/-- Witness for C5 at a concrete request collapsing both hypotheses. -/
theorem claim5_anthropic_ignores_tools_witness :
    dictGet "tools".toList
      (completionAnthropicAttempt "claude-3-opus".toList
        [ChatMsg.mk Role.user "hi".toList] false none ["pick".toList] []
        "general".toList none).wire = none :=
  (claim5_anthropic_ignores_tools "claude-3-opus".toList
    [ChatMsg.mk Role.user "hi".toList] false none ["pick".toList] [] []
    "general".toList none).2.1 (by simp)

theorem openaiAttempt_emissions_usage (model : List Char) (jsonMode : Bool)
    (jsonSchema : Option (List Char)) (tools : List (List Char))
    (key : List Char) (resp : OAIResponse) (u : OAIUsage)
    (msg : OAIMessage) (rest0 : List OAIMessage)
    (hu : resp.usage = some u) (hch : resp.choices = msg :: rest0) :
    (completionOpenaiAttempt model jsonMode jsonSchema tools key (some resp)).2 =
      [Emission.timing ("lm/".toList ++ key),
       Emission.tokenUsage key ("openai:".toList ++ model)
         u.promptTokens u.completionTokens] := by
  unfold completionOpenaiAttempt
  simp only [hu, hch]
  by_cases ht : 0 < tools.length
  · simp only [ht, if_true]
    cases htc : msg.toolCalls with
    | none => simp [htc]
    | some l =>
      cases l with
      | nil => simp [htc]
      | cons tc rest =>
        by_cases hmem : tc.name ∈ tools
        · cases hjl : jsonLoads tc.argumentsStr with
          | none => simp [htc, hmem, hjl]
          | some v => simp [htc, hmem, hjl]
        · simp [htc, hmem]
  · simp only [ht, if_false]
    cases hc : msg.content with
    | none => simp [hc]
    | some c =>
      by_cases hb : (jsonMode || jsonSchema.isSome) = true
      · cases hjl : jsonLoads c with
        | none => simp [hc, hb, hjl]
        | some v => simp [hc, hb, hjl]
      · simp [hc, hb]

theorem openaiAttempt_emissions_no_usage (model : List Char) (jsonMode : Bool)
    (jsonSchema : Option (List Char)) (tools : List (List Char))
    (key : List Char) (resp : OAIResponse) (hu : resp.usage = none) :
    (completionOpenaiAttempt model jsonMode jsonSchema tools key (some resp)).2 =
      [Emission.timing ("lm/".toList ++ key)] := by
  unfold completionOpenaiAttempt
  simp only [hu]

theorem openaiAttempt_emissions_empty_choices (model : List Char)
    (jsonMode : Bool) (jsonSchema : Option (List Char))
    (tools : List (List Char)) (key : List Char) (resp : OAIResponse)
    (u : OAIUsage) (hu : resp.usage = some u) (hch : resp.choices = []) :
    (completionOpenaiAttempt model jsonMode jsonSchema tools key (some resp)).2 =
      [Emission.timing ("lm/".toList ++ key)] := by
  unfold completionOpenaiAttempt
  simp only [hu, hch]

theorem anthAttempt_emissions (model : List Char) (messages : List ChatMsg)
    (jsonMode : Bool) (jsonSchema : Option (List Char))
    (tools : List (List Char)) (args : List (List Char × JValue))
    (key : List Char) (resp : AnthResponse) :
    (completionAnthropicAttempt model messages jsonMode jsonSchema tools args key
      (some resp)).emissions =
      [Emission.timing ("lm/".toList ++ key),
       Emission.tokenUsage key ("anthropic:".toList ++ model)
         resp.usage.inputTokens resp.usage.outputTokens] := by
  unfold completionAnthropicAttempt
  cases hct : resp.contentTexts with
  | nil => simp [hct]
  | cons c cs =>
    by_cases hb : (jsonMode || jsonSchema.isSome) = true
    · cases hjl : jsonLoads (stripFences c) with
      | none => simp [hct, hb, hjl]
      | some v => simp [hct, hb, hjl]
    · simp [hct, hb]

/-- Counterexample to C7: an OpenAI style attempt whose response carries no
tool call while tools were required fails with the missing tool call
violation, yet has already recorded one latency sample and one usage record;
so a failed attempt does not always record nothing. -/
theorem claim7_failed_attempt_records_counterexample :
    (completionOpenaiAttempt "gpt-4o".toList false none ["pick".toList]
        "general".toList
        (some (OAIResponse.mk [OAIMessage.mk (some "hi".toList) (some [])]
          (some (OAIUsage.mk 3 5))))).1 =
      Except.error AttemptError.noToolCallAssert ∧
    (completionOpenaiAttempt "gpt-4o".toList false none ["pick".toList]
        "general".toList
        (some (OAIResponse.mk [OAIMessage.mk (some "hi".toList) (some [])]
          (some (OAIUsage.mk 3 5))))).2 =
      [Emission.timing "lm/general".toList,
       Emission.tokenUsage "general".toList "openai:gpt-4o".toList 3 5] ∧
    (completionOpenaiAttempt "gpt-4o".toList false none ["pick".toList]
        "general".toList
        (some (OAIResponse.mk [OAIMessage.mk (some "hi".toList) (some [])]
          (some (OAIUsage.mk 3 5))))).2 ≠ [] := by
  refine ⟨rfl, rfl, ?_⟩
  intro h
  exact List.cons_ne_nil _ _ h

/-- C7 as amended: an attempt records no metric exactly when the network
call itself fails; once a response arrives, exactly one latency sample is
recorded, and exactly one usage record is additionally recorded exactly when
the response carries usage data and a first choice exists (a missing usage
or an empty choices list aborts the attempt after the latency sample and
before the usage record), even if the attempt then fails its contract
checks; and a successful attempt always has a response with usage and a
first choice, hence exactly one latency sample and one usage record. -/
theorem claim7_metrics_per_attempt (model : List Char) (jsonMode : Bool)
    (jsonSchema : Option (List Char)) (tools : List (List Char))
    (key : List Char) (net : Option OAIResponse) :
    ((completionOpenaiAttempt model jsonMode jsonSchema tools key net).2 = [] ↔
      net = none) ∧
    (∀ resp u msg rest0, net = some resp → resp.usage = some u →
      resp.choices = msg :: rest0 →
      (completionOpenaiAttempt model jsonMode jsonSchema tools key net).2 =
        [Emission.timing ("lm/".toList ++ key),
         Emission.tokenUsage key ("openai:".toList ++ model)
           u.promptTokens u.completionTokens]) ∧
    (∀ resp, net = some resp → resp.usage = none →
      (completionOpenaiAttempt model jsonMode jsonSchema tools key net).2 =
        [Emission.timing ("lm/".toList ++ key)]) ∧
    (∀ resp u, net = some resp → resp.usage = some u → resp.choices = [] →
      (completionOpenaiAttempt model jsonMode jsonSchema tools key net).2 =
        [Emission.timing ("lm/".toList ++ key)]) ∧
    (∀ r, (completionOpenaiAttempt model jsonMode jsonSchema tools key net).1 =
        Except.ok r →
      ∃ resp u msg rest0, net = some resp ∧ resp.usage = some u ∧
        resp.choices = msg :: rest0) ∧
    (∀ model2 messages jsonMode2 jsonSchema2 tools2 args key2
        (net2 : Option AnthResponse),
      ((completionAnthropicAttempt model2 messages jsonMode2 jsonSchema2 tools2
          args key2 net2).emissions = [] ↔ net2 = none) ∧
      (∀ resp2, net2 = some resp2 →
        (completionAnthropicAttempt model2 messages jsonMode2 jsonSchema2 tools2
          args key2 net2).emissions =
          [Emission.timing ("lm/".toList ++ key2),
           Emission.tokenUsage key2 ("anthropic:".toList ++ model2)
             resp2.usage.inputTokens resp2.usage.outputTokens])) := by
  refine ⟨?_, ?_, ?_, ?_, ?_, ?_⟩
  · cases net with
    | none => simp [completionOpenaiAttempt]
    | some resp =>
      simp only [iff_false, Option.some_ne_none]
      cases hu : resp.usage with
      | none =>
        rw [openaiAttempt_emissions_no_usage model jsonMode jsonSchema tools key resp hu]
        simp
      | some u =>
        cases hch : resp.choices with
        | nil =>
          rw [openaiAttempt_emissions_empty_choices model jsonMode jsonSchema
            tools key resp u hu hch]
          simp
        | cons msg rest0 =>
          rw [openaiAttempt_emissions_usage model jsonMode jsonSchema tools key
            resp u msg rest0 hu hch]
          simp
  · intro resp u msg rest0 hne hu hch
    subst hne
    exact openaiAttempt_emissions_usage model jsonMode jsonSchema tools key
      resp u msg rest0 hu hch
  · intro resp hne hu
    subst hne
    exact openaiAttempt_emissions_no_usage model jsonMode jsonSchema tools key resp hu
  · intro resp u hne hu hch
    subst hne
    exact openaiAttempt_emissions_empty_choices model jsonMode jsonSchema
      tools key resp u hu hch
  · intro r hr
    cases net with
    | none => simp [completionOpenaiAttempt] at hr
    | some resp =>
      cases hu : resp.usage with
      | none =>
        unfold completionOpenaiAttempt at hr
        simp only [hu] at hr
        cases hr
      | some u =>
        cases hch : resp.choices with
        | nil =>
          unfold completionOpenaiAttempt at hr
          simp only [hu, hch] at hr
          cases hr
        | cons msg rest0 => exact ⟨resp, u, msg, rest0, rfl, hu, hch⟩
  · intro model2 messages jsonMode2 jsonSchema2 tools2 args key2 net2
    refine ⟨?_, ?_⟩
    · cases net2 with
      | none => simp [completionAnthropicAttempt]
      | some resp2 =>
        simp only [iff_false, Option.some_ne_none]
        rw [anthAttempt_emissions]
        simp
    · intro resp2 hne
      subst hne
      exact anthAttempt_emissions model2 messages jsonMode2 jsonSchema2 tools2
        args key2 resp2

/-- Witness for C7 as amended, at a concrete response carrying usage and one
choice, and at a concrete response carrying usage but an empty choices
list. -/
theorem claim7_metrics_per_attempt_witness :
    (completionOpenaiAttempt "gpt-4o".toList false none [] "general".toList
      (some (OAIResponse.mk [OAIMessage.mk (some "hi".toList) none]
        (some (OAIUsage.mk 3 5))))).2 =
      [Emission.timing ("lm/".toList ++ "general".toList),
       Emission.tokenUsage "general".toList
         ("openai:".toList ++ "gpt-4o".toList) 3 5] ∧
    (completionOpenaiAttempt "gpt-4o".toList false none [] "general".toList
      (some (OAIResponse.mk [] (some (OAIUsage.mk 3 5))))).2 =
      [Emission.timing ("lm/".toList ++ "general".toList)] :=
  ⟨(claim7_metrics_per_attempt "gpt-4o".toList false none [] "general".toList
      (some (OAIResponse.mk [OAIMessage.mk (some "hi".toList) none]
        (some (OAIUsage.mk 3 5))))).2.1
      (OAIResponse.mk [OAIMessage.mk (some "hi".toList) none]
        (some (OAIUsage.mk 3 5))) (OAIUsage.mk 3 5)
      (OAIMessage.mk (some "hi".toList) none) [] rfl rfl rfl,
    (claim7_metrics_per_attempt "gpt-4o".toList false none [] "general".toList
      (some (OAIResponse.mk [] (some (OAIUsage.mk 3 5))))).2.2.2.1
      (OAIResponse.mk [] (some (OAIUsage.mk 3 5))) (OAIUsage.mk 3 5)
      rfl rfl rfl⟩

/-- Counterexample to C8: with the local endpoint override set, a model
named gpt-4 does not match the anthropic family marker, yet client
resolution returns the default OpenAI client rather than one pointed at the
caller supplied base url, because the source additionally excludes any model
whose name contains gpt from the local redirect. -/
theorem claim8_gpt_local_counterexample :
    getClient (fun n => if n = "LOCAL_MODEL_API_BASE".toList
        then some "http://localhost:8000".toList else none) "gpt-4".toList =
      Except.ok ClientSpec.openaiDefault ∧
    ("claude".toList).isPrefixOf (lowerCs "gpt-4".toList) = false ∧
    Except.ok ClientSpec.openaiDefault ≠
      (Except.ok (ClientSpec.openaiWithBase "http://localhost:8000".toList
        "not-needed".toList) : Except ClientError ClientSpec) := by
  refine ⟨rfl, by decide, ?_⟩
  intro h
  exact absurd (Except.ok.inj h) (by decide)

/-- C8 as amended: for a model that does not match the anthropic family
marker and whose name does not contain gpt, a truthy local endpoint override
resolves to an OpenAI style client at the caller supplied base url with the
placeholder credential. -/
theorem claim8_local_routing (env : List Char → Option (List Char))
    (modelName base : List Char)
    (hclaude : ("claude".toList).isPrefixOf (lowerCs modelName) = false)
    (hbase : env "LOCAL_MODEL_API_BASE".toList = some base)
    (hne : base.isEmpty = false)
    (hgpt : occursIn "gpt".toList modelName = false) :
    getClient env modelName =
      Except.ok (ClientSpec.openaiWithBase base "not-needed".toList) := by
  unfold getClient
  have h1 : ¬ (("claude".toList).isPrefixOf (lowerCs modelName) = true) := by
    rw [hclaude]
    exact Bool.false_ne_true
  rw [if_neg h1]
  simp only [hbase]
  have h2 : (!base.isEmpty && !(occursIn "gpt".toList modelName)) = true := by
    rw [hne, hgpt]
    rfl
  rw [if_pos h2]

/-- Witness for C8 as amended at a concrete environment and model name. -/
theorem claim8_local_routing_witness :
    getClient (fun n => if n = "LOCAL_MODEL_API_BASE".toList
        then some "http://localhost:8000".toList else none) "llama-3".toList =
      Except.ok (ClientSpec.openaiWithBase "http://localhost:8000".toList
        "not-needed".toList) :=
  claim8_local_routing _ "llama-3".toList "http://localhost:8000".toList
    (by decide) (by decide) (by decide) (by decide)

theorem convert_foldl_snd (acc : Option (List Char) × List ChatMsg)
    (msgs : List ChatMsg) :
    (List.foldl convertStep acc msgs).2 =
      acc.2 ++ msgs.filter (fun m => m.role ≠ Role.system) := by
  induction msgs using List.reverseRecOn with
  | nil => simp
  | append_singleton l m ih =>
    rw [List.foldl_append]
    by_cases hm : m.role = Role.system
    · simp [convertStep, hm, ih]
    · simp [convertStep, hm, ih]

theorem convert_foldl_fst (acc : Option (List Char) × List ChatMsg)
    (msgs : List ChatMsg) :
    (List.foldl convertStep acc msgs).1 =
      match (msgs.filter (fun m => m.role = Role.system)).getLast? with
      | some m => some m.content
      | none => acc.1 := by
  induction msgs using List.reverseRecOn with
  | nil => simp
  | append_singleton l m ih =>
    rw [List.foldl_append]
    by_cases hm : m.role = Role.system
    · simp [convertStep, hm]
    · simp only [List.filter_append]
      have hf : [m].filter (fun m => decide (m.role = Role.system)) = [] := by
        simp [hm]
      rw [hf, List.append_nil]
      simp [convertStep, hm, ih]

/-- Counterexample to C6: with two system messages, the code removes both
from the per message array and sends the last one through the system
channel, whereas the claim predicts the first system message is the one
extracted and sent. -/
theorem claim6_first_system_counterexample :
    convertMessages [ChatMsg.mk Role.system ['A'], ChatMsg.mk Role.system ['B'],
        ChatMsg.mk Role.user ['C']] =
      (some ['B'], [ChatMsg.mk Role.user ['C']]) ∧
    (convertMessages [ChatMsg.mk Role.system ['A'], ChatMsg.mk Role.system ['B'],
        ChatMsg.mk Role.user ['C']]).1 ≠ some ['A'] ∧
    (convertMessages [ChatMsg.mk Role.system ['A'], ChatMsg.mk Role.system ['B'],
        ChatMsg.mk Role.user ['C']]).2.length ≠ 2 := by
  refine ⟨rfl, by decide, by decide⟩

/-- C6 as amended: every message with role system is removed from the per
message array, the system channel carries the content of the last system
message, and when a JSON schema is requested the serialized schema directive
is concatenated onto the truthy system text, or (stripped) becomes the whole
system text when no truthy system text exists. -/
theorem claim6_system_extraction (msgs : List ChatMsg) (sch : List Char) :
    (convertMessages msgs).2 = msgs.filter (fun m => m.role ≠ Role.system) ∧
    (convertMessages msgs).1 =
      ((msgs.filter (fun m => m.role = Role.system)).getLast?).map ChatMsg.content ∧
    (∀ s, (convertMessages msgs).1 = some s → s ≠ [] →
      anthropicSystemField (convertMessages msgs).1 (some sch) =
        some (s ++ jsonInstruction sch)) ∧
    (((convertMessages msgs).1 = none ∨ (convertMessages msgs).1 = some []) →
      anthropicSystemField (convertMessages msgs).1 (some sch) =
        some (pyStrip (jsonInstruction sch))) := by
  refine ⟨?_, ?_, ?_, ?_⟩
  · simpa using convert_foldl_snd (none, []) msgs
  · rw [convertMessages, convert_foldl_fst (none, []) msgs]
    cases (msgs.filter (fun m => m.role = Role.system)).getLast? <;> simp
  · intro s hs hne
    rw [hs]
    simp [anthropicSystemField, truthyStr, hne]
  · intro hcase
    rcases hcase with hs | hs <;> rw [hs] <;>
      simp [anthropicSystemField, truthyStr]

/-- Witness for C6 as amended: a single truthy system message followed by a
user message, with a schema request. -/
theorem claim6_system_extraction_witness :
    anthropicSystemField
      (convertMessages [ChatMsg.mk Role.system "Be terse".toList,
        ChatMsg.mk Role.user "2+2?".toList]).1 (some "S".toList) =
      some ("Be terse".toList ++ jsonInstruction "S".toList) :=
  (claim6_system_extraction [ChatMsg.mk Role.system "Be terse".toList,
    ChatMsg.mk Role.user "2+2?".toList] "S".toList).2.2.1
    "Be terse".toList rfl (by decide)

theorem heldCount_append_cons (pre post : List GateTask) (t : GateTask) :
    heldCount (pre ++ t :: post) =
      heldCount pre + (if t.holds then 1 else 0) + heldCount post := by
  cases h : t.holds
  · simp [heldCount, List.filter_append, List.filter_cons, h]
  · simp [heldCount, List.filter_append, List.filter_cons, h]
    omega

theorem heldCount_init (progs : List (List GateAction)) :
    heldCount (initTasks progs) = 0 := by
  induction progs with
  | nil => rfl
  | cons p ps ih =>
    simp only [initTasks, List.map_cons] at ih ⊢
    simp [heldCount, List.filter_cons] at ih ⊢

theorem gate_step_preserves (limit : Nat) (s1 s2 : List GateTask)
    (h : GateStep limit s1 s2) (hle : heldCount s1 ≤ limit) :
    heldCount s2 ≤ limit := by
  cases h with
  | acquire pre post hb r hcount =>
    rw [heldCount_append_cons] at hcount ⊢
    cases hb <;> simp at hcount ⊢ <;> omega
  | middle pre post hb a r ha =>
    rw [heldCount_append_cons] at hle ⊢
    cases hb <;> simp at hle ⊢ <;> omega
  | release pre post hb r =>
    rw [heldCount_append_cons] at hle ⊢
    cases hb <;> simp at hle ⊢ <;> omega

theorem gate_invariant (limit : Nat) (progs : List (List GateAction))
    (s : List GateTask) (h : GateReachable limit (initTasks progs) s) :
    heldCount s ≤ limit := by
  induction h with
  | refl => rw [heldCount_init]; exact Nat.zero_le limit
  | tail hsteps hstep ih => exact gate_step_preserves limit _ _ hstep ih

theorem retryEvents_members (n : Nat) :
    ∀ a ∈ retryEvents n, a = GateAction.attemptStep ∨ a = GateAction.sleepStep := by
  induction n with
  | zero =>
    intro a ha
    simp [retryEvents] at ha
    exact Or.inl ha
  | succ n ih =>
    intro a ha
    simp only [retryEvents, List.mem_cons] at ha
    rcases ha with h | h | h
    · exact Or.inl h
    · exact Or.inr h
    · exact ih a h

/-- C4: in every state reachable under the interleaving semantics of the per
gateway semaphore, the number of logical calls holding a unit never exceeds
the construction time limit; and the program of one call acquires first,
then runs nothing but adapter attempts and backoff sleeps, and releases only
at the very end, so the unit is held across all retry attempts and sleeps of
that call. -/
theorem claim4_concurrency_gate :
    (∀ limit progs s, GateReachable limit (initTasks progs) s →
      heldCount s ≤ limit) ∧
    (∀ (E A : Type) (f : Nat → Except E A), ∃ body,
      callProgram f = GateAction.acquire :: body ++ [GateAction.release] ∧
      ∀ a ∈ body, a = GateAction.attemptStep ∨ a = GateAction.sleepStep) := by
  refine ⟨fun limit progs s h => gate_invariant limit progs s h, ?_⟩
  intro E A f
  exact ⟨retryEvents (completionRetry f).2.1.length, rfl, retryEvents_members _⟩

/-- Witness for C4: with limit 10 and one concrete task, the state reached
after its acquire step satisfies the bound. -/
theorem claim4_concurrency_gate_witness :
    heldCount [GateTask.mk true [GateAction.attemptStep, GateAction.release]] ≤ 10 :=
  claim4_concurrency_gate.1 10
    [[GateAction.acquire, GateAction.attemptStep, GateAction.release]]
    [GateTask.mk true [GateAction.attemptStep, GateAction.release]]
    (Relation.ReflTransGen.single
      (GateStep.acquire [] [] false [GateAction.attemptStep, GateAction.release]
        (by decide)))

theorem dropWhile_ws_cons_nl (t : List Char) :
    List.dropWhile isWsChar ('\n' :: t) = List.dropWhile isWsChar t := by
  rw [List.dropWhile_cons, if_pos (by decide : isWsChar '\n' = true)]

theorem pyStrip_cons_nl (t : List Char) : pyStrip ('\n' :: t) = pyStrip t := by
  unfold pyStrip
  rw [dropWhile_ws_cons_nl]

theorem pyStrip_append_nl (t : List Char) : pyStrip (t ++ ['\n']) = pyStrip t := by
  unfold pyStrip
  rw [List.dropWhile_append]
  by_cases h : (List.dropWhile isWsChar t).isEmpty
  · rw [if_pos h]
    have h2 : List.dropWhile isWsChar t = [] := by
      cases hc : List.dropWhile isWsChar t
      · rfl
      · rw [hc] at h
        simp at h
    rw [h2]
    rfl
  · rw [if_neg h, List.reverse_append]
    simp only [List.reverse_cons, List.reverse_nil, List.nil_append,
      List.singleton_append]
    rw [dropWhile_ws_cons_nl]

theorem dropWhile_dropWhile (p : Char → Bool) (l : List Char) :
    List.dropWhile p (List.dropWhile p l) = List.dropWhile p l := by
  cases h : List.dropWhile p l with
  | nil => rfl
  | cons a t =>
    have ha := List.head?_dropWhile_not p l
    rw [h] at ha
    simp only [List.head?_cons] at ha
    rw [List.dropWhile_cons, if_neg (by rw [ha]; exact Bool.false_ne_true)]

theorem pyStrip_idem (cs : List Char) : pyStrip (pyStrip cs) = pyStrip cs := by
  have hBA : (List.dropWhile isWsChar
        (List.dropWhile isWsChar cs).reverse).reverse <+:
      List.dropWhile isWsChar cs := by
    have h1 := List.dropWhile_suffix
      (l := (List.dropWhile isWsChar cs).reverse) isWsChar
    have h2 := List.reverse_prefix.mpr h1
    rwa [List.reverse_reverse] at h2
  show pyStrip ((List.dropWhile isWsChar
    (List.dropWhile isWsChar cs).reverse).reverse) = _
  have hstep1 : List.dropWhile isWsChar
      ((List.dropWhile isWsChar (List.dropWhile isWsChar cs).reverse).reverse) =
      (List.dropWhile isWsChar (List.dropWhile isWsChar cs).reverse).reverse := by
    cases hBr : (List.dropWhile isWsChar
        (List.dropWhile isWsChar cs).reverse).reverse with
    | nil => rfl
    | cons a t =>
      rw [hBr] at hBA
      obtain ⟨u, hu⟩ := hBA
      have hh : (List.dropWhile isWsChar cs).head? = some a := by
        rw [← hu]
        simp
      have ha := List.head?_dropWhile_not isWsChar cs
      rw [hh] at ha
      rw [List.dropWhile_cons, if_neg (by rw [ha]; exact Bool.false_ne_true)]
  unfold pyStrip
  rw [hstep1, List.reverse_reverse, dropWhile_dropWhile]

theorem splitOnSubF_fuel (sep : List Char) :
    ∀ fuel fuel2 cs, cs.length ≤ fuel → cs.length ≤ fuel2 →
      splitOnSubF sep fuel cs = splitOnSubF sep fuel2 cs := by
  intro fuel
  induction fuel with
  | zero =>
    intro fuel2 cs h1 _
    have hnil : cs = [] := List.length_eq_zero.mp (Nat.le_zero.mp h1)
    subst hnil
    cases fuel2 <;> rfl
  | succ f ih =>
    intro fuel2 cs h1 h2
    cases cs with
    | nil => cases fuel2 <;> rfl
    | cons c rest =>
      cases fuel2 with
      | zero => simp at h2
      | succ f2 =>
        by_cases hcond : sep ≠ [] ∧ sep.isPrefixOf (c :: rest)
        · have hsep : 1 ≤ sep.length := by
            rcases hs : sep with _ | _
            · exact absurd hs hcond.1
            · simp
          have hlen : ((c :: rest).drop sep.length).length ≤ f := by
            simp only [List.length_drop, List.length_cons]
            simp only [List.length_cons] at h1
            omega
          have hlen2 : ((c :: rest).drop sep.length).length ≤ f2 := by
            simp only [List.length_drop, List.length_cons]
            simp only [List.length_cons] at h2
            omega
          simp only [splitOnSubF, if_pos hcond]
          rw [ih f2 _ hlen hlen2]
        · have hlen : rest.length ≤ f := by
            simp only [List.length_cons] at h1
            omega
          have hlen2 : rest.length ≤ f2 := by
            simp only [List.length_cons] at h2
            omega
          simp only [splitOnSubF, if_neg hcond]
          rw [ih f2 rest hlen hlen2]

theorem splitOnSub_cons (sep : List Char) (c : Char) (rest : List Char) :
    splitOnSub sep (c :: rest) =
      if sep ≠ [] ∧ sep.isPrefixOf (c :: rest) then
        [] :: splitOnSub sep ((c :: rest).drop sep.length)
      else
        match splitOnSub sep rest with
        | [] => [[c]]
        | r :: rs => (c :: r) :: rs := by
  show splitOnSubF sep (rest.length + 1) (c :: rest) = _
  by_cases hcond : sep ≠ [] ∧ sep.isPrefixOf (c :: rest)
  · have hsep : 1 ≤ sep.length := by
      rcases hs : sep with _ | _
      · exact absurd hs hcond.1
      · simp
    simp only [splitOnSubF, if_pos hcond]
    congr 1
    apply splitOnSubF_fuel
    · simp only [List.length_drop, List.length_cons]
      omega
    · exact Nat.le_refl _
  · simp only [splitOnSubF, if_neg hcond]
    rfl

theorem occursIn_cons (sep : List Char) (c : Char) (rest : List Char) :
    occursIn sep (c :: rest) =
      (sep.isPrefixOf (c :: rest) || occursIn sep rest) := rfl

theorem splitOnSub_no_occur (sep t : List Char)
    (h : occursIn sep t = false) : splitOnSub sep t = [t] := by
  induction t with
  | nil => rfl
  | cons c rest ih =>
    rw [occursIn_cons] at h
    obtain ⟨hp, ho⟩ := Bool.or_eq_false_iff.mp h
    rw [splitOnSub_cons,
      if_neg (fun hc => absurd hc.2 (by rw [hp]; exact Bool.false_ne_true)),
      ih ho]

theorem splitOnSub_self_prefix (a : Char) (sep rest : List Char) :
    splitOnSub (a :: sep) ((a :: sep) ++ rest) = [] :: splitOnSub (a :: sep) rest := by
  have hh : (a :: sep) ++ rest = a :: (sep ++ rest) := List.cons_append _ _ _
  have hpre : (a :: sep).isPrefixOf (a :: (sep ++ rest)) = true := by
    rw [List.isPrefixOf_iff_prefix, ← hh]
    exact List.prefix_append _ _
  rw [hh, splitOnSub_cons, if_pos ⟨List.cons_ne_nil a sep, hpre⟩]
  congr 1
  have hdrop : (a :: (sep ++ rest)).drop (a :: sep).length = rest := by
    rw [← hh]
    exact List.drop_left _ _
  rw [hdrop]

theorem prefix_ticks_through_nl (s v : List Char)
    (h : threeTicks.isPrefixOf (s ++ '\n' :: v) = true) :
    threeTicks.isPrefixOf s = true := by
  rcases s with _ | ⟨a, _ | ⟨b, _ | ⟨c, s2⟩⟩⟩
  · rw [List.nil_append] at h
    simp [threeTicks, List.isPrefixOf, (by decide : ('`' == '\n') = false)] at h
  · simp only [List.cons_append, List.nil_append] at h
    simp [threeTicks, List.isPrefixOf,
      (by decide : ('`' == '\n') = false)] at h
  · simp only [List.cons_append, List.nil_append] at h
    simp [threeTicks, List.isPrefixOf,
      (by decide : ('`' == '\n') = false)] at h
  · simp only [List.cons_append] at h
    simp only [threeTicks, List.isPrefixOf, Bool.and_eq_true] at h ⊢
    exact ⟨h.1, h.2.1, h.2.2.1, trivial⟩

theorem prefix_ticksJson_through_nl (s v : List Char)
    (h : ticksJson.isPrefixOf (s ++ '\n' :: v) = true) :
    threeTicks.isPrefixOf s = true := by
  rcases s with _ | ⟨a, _ | ⟨b, _ | ⟨c, s2⟩⟩⟩
  · rw [List.nil_append] at h
    simp [ticksJson, List.isPrefixOf, (by decide : ('`' == '\n') = false)] at h
  · simp only [List.cons_append, List.nil_append] at h
    simp [ticksJson, List.isPrefixOf,
      (by decide : ('`' == '\n') = false)] at h
  · simp only [List.cons_append, List.nil_append] at h
    simp [ticksJson, List.isPrefixOf,
      (by decide : ('`' == '\n') = false)] at h
  · simp only [List.cons_append] at h
    simp only [ticksJson, List.isPrefixOf, Bool.and_eq_true] at h
    simp only [threeTicks, List.isPrefixOf, Bool.and_eq_true]
    exact ⟨h.1, h.2.1, h.2.2.1, trivial⟩

theorem no_occur_ticksJson_tail (s : List Char)
    (hs : occursIn threeTicks s = false) :
    occursIn ticksJson (s ++ '\n' :: threeTicks) = false := by
  induction s with
  | nil => decide
  | cons c rest ih =>
    rw [occursIn_cons] at hs
    obtain ⟨hp, ho⟩ := Bool.or_eq_false_iff.mp hs
    rw [List.cons_append, occursIn_cons]
    apply Bool.or_eq_false_iff.mpr
    refine ⟨?_, ih ho⟩
    cases hq : ticksJson.isPrefixOf (c :: (rest ++ '\n' :: threeTicks)) with
    | false => rfl
    | true =>
      have := prefix_ticksJson_through_nl (c :: rest) threeTicks
        (by rw [List.cons_append]; exact hq)
      rw [this] at hp
      cases hp

theorem no_occur_ticks_tail (s : List Char)
    (hs : occursIn threeTicks s = false) :
    occursIn threeTicks (s ++ ['\n']) = false := by
  induction s with
  | nil => decide
  | cons c rest ih =>
    rw [occursIn_cons] at hs
    obtain ⟨hp, ho⟩ := Bool.or_eq_false_iff.mp hs
    rw [List.cons_append, occursIn_cons]
    apply Bool.or_eq_false_iff.mpr
    refine ⟨?_, ih ho⟩
    cases hq : threeTicks.isPrefixOf (c :: (rest ++ ['\n'])) with
    | false => rfl
    | true =>
      have := prefix_ticks_through_nl (c :: rest) []
        (by rw [List.cons_append]; exact hq)
      rw [this] at hp
      cases hp

theorem splitOnSub_ticks_closing (s : List Char)
    (hs : occursIn threeTicks s = false) :
    splitOnSub threeTicks (s ++ '\n' :: threeTicks) = [s ++ ['\n'], []] := by
  induction s with
  | nil => decide
  | cons c rest ih =>
    rw [occursIn_cons] at hs
    obtain ⟨hp, ho⟩ := Bool.or_eq_false_iff.mp hs
    rw [List.cons_append, splitOnSub_cons]
    have hq : threeTicks.isPrefixOf (c :: (rest ++ '\n' :: threeTicks)) = false := by
      cases hq2 : threeTicks.isPrefixOf (c :: (rest ++ '\n' :: threeTicks)) with
      | false => rfl
      | true =>
        have := prefix_ticks_through_nl (c :: rest) threeTicks
          (by rw [List.cons_append]; exact hq2)
        rw [this] at hp
        cases hp
    rw [if_neg (fun hc => absurd hc.2 (by rw [hq]; exact Bool.false_ne_true))]
    rw [ih ho]
    simp

theorem prefix_ticks_cons_nl (s : List Char) :
    threeTicks.isPrefixOf ('\n' :: s) = false := by
  simp [threeTicks, List.isPrefixOf, (by decide : ('`' == '\n') = false)]

theorem no_occur_ticks_cons_nl (s : List Char)
    (hs : occursIn threeTicks s = false) :
    occursIn threeTicks ('\n' :: s) = false := by
  rw [occursIn_cons]
  apply Bool.or_eq_false_iff.mpr
  exact ⟨prefix_ticks_cons_nl s, hs⟩

theorem stripFences_wrapJson (s : List Char)
    (hs : occursIn threeTicks s = false) :
    stripFences (wrapJsonFence s) = pyStrip ('\n' :: (s ++ ['\n'])) := by
  have h0 : occursIn threeTicks ('\n' :: s) = false := no_occur_ticks_cons_nl s hs
  have hR : ('\n' :: (s ++ '\n' :: threeTicks)) =
      ('\n' :: s) ++ '\n' :: threeTicks := (List.cons_append _ _ _).symm
  have hoccR : occursIn ticksJson ('\n' :: (s ++ '\n' :: threeTicks)) = false := by
    rw [hR]
    exact no_occur_ticksJson_tail ('\n' :: s) h0
  have hpre : ticksJson.isPrefixOf (wrapJsonFence s) = true := by
    rw [List.isPrefixOf_iff_prefix]
    exact List.prefix_append _ _
  have hocc : occursIn ticksJson (wrapJsonFence s) = true := by
    show occursIn ticksJson
      ('`' :: (['`', '`', 'j', 's', 'o', 'n'] ++
        ('\n' :: (s ++ '\n' :: threeTicks)))) = true
    rw [occursIn_cons]
    have : ticksJson.isPrefixOf
        ('`' :: (['`', '`', 'j', 's', 'o', 'n'] ++
          ('\n' :: (s ++ '\n' :: threeTicks)))) = true := hpre
    rw [this]
    rfl
  have hsplit1 : splitOnSub ticksJson (wrapJsonFence s) =
      [[], '\n' :: (s ++ '\n' :: threeTicks)] := by
    have h1 : splitOnSub ticksJson (wrapJsonFence s) =
        [] :: splitOnSub ticksJson ('\n' :: (s ++ '\n' :: threeTicks)) :=
      splitOnSub_self_prefix '`' ['`', '`', 'j', 's', 'o', 'n'] _
    rw [h1, splitOnSub_no_occur _ _ hoccR]
  have hsplit2 : splitOnSub threeTicks ('\n' :: (s ++ '\n' :: threeTicks)) =
      [('\n' :: s) ++ ['\n'], []] := by
    rw [hR]
    exact splitOnSub_ticks_closing ('\n' :: s) h0
  unfold stripFences
  rw [if_pos hocc, hsplit1]
  show pyStrip (idxD (splitOnSub threeTicks
    ('\n' :: (s ++ '\n' :: threeTicks))) 0) = _
  rw [hsplit2]
  show pyStrip (('\n' :: s) ++ ['\n']) = _
  rw [List.cons_append]

theorem stripFences_wrapBare (s : List Char)
    (hs : occursIn threeTicks s = false) :
    stripFences (wrapBareFence s) = pyStrip ('\n' :: (s ++ ['\n'])) := by
  have h0 : occursIn threeTicks ('\n' :: s) = false := no_occur_ticks_cons_nl s hs
  have hR : ('\n' :: (s ++ '\n' :: threeTicks)) =
      ('\n' :: s) ++ '\n' :: threeTicks := (List.cons_append _ _ _).symm
  have hoccR : occursIn ticksJson ('\n' :: (s ++ '\n' :: threeTicks)) = false := by
    rw [hR]
    exact no_occur_ticksJson_tail ('\n' :: s) h0
  have hocc_tj : occursIn ticksJson (wrapBareFence s) = false := by
    show occursIn ticksJson
      ('`' :: '`' :: '`' :: ('\n' :: (s ++ '\n' :: threeTicks))) = false
    rw [occursIn_cons]
    apply Bool.or_eq_false_iff.mpr
    refine ⟨by simp [ticksJson, List.isPrefixOf,
      (by decide : ('j' == '\n') = false)], ?_⟩
    rw [occursIn_cons]
    apply Bool.or_eq_false_iff.mpr
    refine ⟨by simp [ticksJson, List.isPrefixOf,
      (by decide : ('`' == '\n') = false)], ?_⟩
    rw [occursIn_cons]
    apply Bool.or_eq_false_iff.mpr
    refine ⟨by simp [ticksJson, List.isPrefixOf,
      (by decide : ('`' == '\n') = false)], hoccR⟩
  have hpre : threeTicks.isPrefixOf (wrapBareFence s) = true := by
    rw [List.isPrefixOf_iff_prefix]
    exact List.prefix_append _ _
  have hocc_tt : occursIn threeTicks (wrapBareFence s) = true := by
    show occursIn threeTicks
      ('`' :: (['`', '`'] ++ ('\n' :: (s ++ '\n' :: threeTicks)))) = true
    rw [occursIn_cons]
    have : threeTicks.isPrefixOf
        ('`' :: (['`', '`'] ++ ('\n' :: (s ++ '\n' :: threeTicks)))) = true := hpre
    rw [this]
    rfl
  have hsplit1 : splitOnSub threeTicks (wrapBareFence s) =
      [[], ('\n' :: s) ++ ['\n'], []] := by
    have h1 : splitOnSub threeTicks (wrapBareFence s) =
        [] :: splitOnSub threeTicks ('\n' :: (s ++ '\n' :: threeTicks)) :=
      splitOnSub_self_prefix '`' ['`', '`'] _
    rw [h1, hR, splitOnSub_ticks_closing ('\n' :: s) h0]
  have hsplit2 : splitOnSub threeTicks (('\n' :: s) ++ ['\n']) =
      [('\n' :: s) ++ ['\n']] :=
    splitOnSub_no_occur _ _ (no_occur_ticks_tail ('\n' :: s) h0)
  unfold stripFences
  rw [if_neg (by rw [hocc_tj]; exact Bool.false_ne_true), if_pos hocc_tt,
    hsplit1]
  show pyStrip (idxD (splitOnSub threeTicks (('\n' :: s) ++ ['\n'])) 0) = _
  rw [hsplit2]
  show pyStrip (('\n' :: s) ++ ['\n']) = _
  rw [List.cons_append]

theorem jsonLoads_pyStrip (x : List Char) :
    jsonLoads (pyStrip x) = jsonLoads x := by
  simp only [jsonLoads, pyStrip_idem]

/-- Counterexample to C9: for the JSON payload made of a string containing a
triple backtick, both fenced wrappings decode to a parse failure while the
payload itself parses, so the decode of the wrapped payload is not the parse
of the payload. -/
theorem claim9_backtick_counterexample :
    anthropicDecode (wrapJsonFence ['"', '`', '`', '`', '"']) = none ∧
    anthropicDecode (wrapBareFence ['"', '`', '`', '`', '"']) = none ∧
    jsonLoads ['"', '`', '`', '`', '"'] = some (JValue.jstr ['`', '`', '`']) ∧
    anthropicDecode (wrapJsonFence ['"', '`', '`', '`', '"']) ≠
      jsonLoads ['"', '`', '`', '`', '"'] :=
  ⟨rfl, rfl, rfl, fun h => Option.noConfusion h⟩

/-- C9 as amended: for every payload string with no triple backtick
occurrence, the anthropic decode of the payload wrapped in a JSON fence and
of the payload wrapped in a bare fence agree, and both equal the JSON parse
of the payload itself. -/
theorem claim9_fence_equivalence (s : List Char)
    (hs : occursIn threeTicks s = false) :
    anthropicDecode (wrapJsonFence s) = anthropicDecode (wrapBareFence s) ∧
    anthropicDecode (wrapJsonFence s) = jsonLoads s := by
  have hj := stripFences_wrapJson s hs
  have hb := stripFences_wrapBare s hs
  have heq : jsonLoads (pyStrip ('\n' :: (s ++ ['\n']))) = jsonLoads s := by
    have hps : pyStrip ('\n' :: (s ++ ['\n'])) = pyStrip s := by
      rw [pyStrip_cons_nl, pyStrip_append_nl]
    rw [hps, jsonLoads_pyStrip]
  constructor
  · unfold anthropicDecode
    rw [hj, hb]
  · unfold anthropicDecode
    rw [hj]
    exact heq

/-- Witness for C9 as amended at the concrete payload made of a one element
array. -/
theorem claim9_fence_equivalence_witness :
    anthropicDecode (wrapJsonFence ['[', '1', ']']) =
      anthropicDecode (wrapBareFence ['[', '1', ']']) ∧
    anthropicDecode (wrapJsonFence ['[', '1', ']']) =
      jsonLoads ['[', '1', ']'] :=
  claim9_fence_equivalence ['[', '1', ']'] (by decide)

end SkillWeaver
